import Mathlib

/-!
Shallow embedding of the SonicUX Harmonic Voice Engine.

Part 1 models the Harmony Manager (src/src/core/harmony.ts): note-name and
mode tables, harmonic state, scale-degree-to-MIDI conversion, quantization,
chord construction, locking, and modulation.

Part 2 models the SynthEngine voice lifecycle (src/core/synth-engine.ts):
the active-voice registry, polyphony-limited allocation with oldest-first
voice stealing, timed release, and cleanup.

Modelling conventions:
* JS numbers used as integers (MIDI pitches, semitone intervals) are `Int`
  or `Nat`; audio-clock times are `Int` in centiseconds (0.05 s = 5) and
  velocities are `Int` scaled by 100 (0.7 = 70) — every time and velocity
  constant of the source is exact in these units.
* JS integer division/remainder: `Math.floor(a / b)` is `Int.fdiv`, and the
  JS `%` operator (remainder with the sign of the dividend) is `Int.tmod`.
* An out-of-bounds JS array read yields `undefined` and poisons arithmetic
  to `NaN`; fallible results are therefore `Option Int`, with `none` for the
  NaN outcome.
* A JS `Map` is an insertion-ordered association list `List (key × value)`.
* `setTimeout` callbacks become explicit pending-timer records; firing a
  timer is an explicit step, so states in which a scheduled cleanup has not
  yet run are directly expressible.  The audio clock does not advance inside
  a synchronous call sequence.
-/

namespace SonicUX

/-- Association-list lookup: the model of JS `Map.get` / record indexing
(first matching key wins). -/
def lookupA {α β : Type} [DecidableEq α] (a : α) : List (α × β) → Option β
  | [] => none
  | p :: rest => if p.1 = a then some p.2 else lookupA a rest

/-- MIDI note number for middle C (src/src/core/harmony.ts, MIDDLE_C). -/
def MIDDLE_C : ℤ := 60

/-- Note name to semitone offset from C (harmony.ts, NOTE_MAP). -/
def NOTE_MAP : List (String × ℕ) :=
  [("C", 0), ("C#", 1), ("Db", 1), ("D", 2), ("D#", 3), ("Eb", 3), ("E", 4),
   ("F", 5), ("F#", 6), ("Gb", 6), ("G", 7), ("G#", 8), ("Ab", 8), ("A", 9),
   ("A#", 10), ("Bb", 10), ("B", 11)]

/-- Interval pattern of the major mode (harmony.ts, MODES.major). -/
def MODES_major : List ℤ := [0, 2, 4, 5, 7, 9, 11]

/-- Interval pattern of the minor mode (harmony.ts, MODES.minor). -/
def MODES_minor : List ℤ := [0, 2, 3, 5, 7, 8, 10]

/-- Mode definitions as interval patterns (harmony.ts, MODES). -/
def MODES : List (String × List ℤ) :=
  [("major", MODES_major),
   ("lydian", [0, 2, 4, 6, 7, 9, 11]),
   ("mixolydian", [0, 2, 4, 5, 7, 9, 10]),
   ("minor", MODES_minor),
   ("dorian", [0, 2, 3, 5, 7, 9, 10]),
   ("phrygian", [0, 1, 3, 5, 7, 8, 10]),
   ("pentatonic_major", [0, 2, 4, 7, 9]),
   ("pentatonic_minor", [0, 3, 5, 7, 10])]

/-- Triad quality tag (harmony.ts, ROMAN_TO_DEGREE value type). -/
inductive ChordType where
  | major
  | minor
  | diminished
deriving DecidableEq

/-- Roman numeral to scale degree mapping (harmony.ts, ROMAN_TO_DEGREE). -/
def ROMAN_TO_DEGREE : List (String × (ℕ × ChordType)) :=
  [("I", (0, ChordType.major)), ("II", (1, ChordType.major)),
   ("III", (2, ChordType.major)), ("IV", (3, ChordType.major)),
   ("V", (4, ChordType.major)), ("VI", (5, ChordType.major)),
   ("VII", (6, ChordType.major)),
   ("i", (0, ChordType.minor)), ("ii", (1, ChordType.minor)),
   ("iii", (2, ChordType.minor)), ("iv", (3, ChordType.minor)),
   ("v", (4, ChordType.minor)), ("vi", (5, ChordType.minor)),
   ("vii", (6, ChordType.minor)),
   ("viiÂ°", (6, ChordType.diminished)), ("viio", (6, ChordType.diminished))]

/-- The HarmonyManager instance state: the `HarmonyState` record fields
(key, mode, scale, chord, isLocked) together with the private `rootNote`
and `chordPool` fields of the class.  A chord entry is `Option ℤ` because a
chord tone computed through an out-of-range scale index is NaN in JS. -/
structure HarmonyManager where
  rootNote : ℕ
  key : String
  mode : String
  scale : List ℤ
  chord : List (Option ℤ)
  isLocked : Bool
  chordPool : List String
deriving DecidableEq

namespace HarmonyManager

/-- harmony.ts, getScaleNote: convert a scale degree to a MIDI note number.
`Math.floor(degree / scaleLength)` is floor division and the JS `%` is
truncating remainder; a negative remainder indexes off the array, giving
`undefined` (modelled as `none`). -/
def getScaleNote (h : HarmonyManager) (degree : ℤ) (octave : ℤ) : Option ℤ :=
  let scaleLength : ℤ := h.scale.length
  let octaveOffset : ℤ := Int.fdiv degree scaleLength
  let scaleDegree : ℤ := Int.tmod degree scaleLength
  if scaleDegree < 0 then none
  else
    match h.scale.get? scaleDegree.toNat with
    | none => none
    | some interval =>
        some (MIDDLE_C + (octave - 4) * 12 + (h.rootNote : ℤ) + interval +
          octaveOffset * 12)

/-- harmony.ts, quantizeToScale: quantize a MIDI note to the nearest scale
note.  The loop keeps the running pair (nearest, minDiff), seeded with the
first scale entry; on an empty scale the seed read is `undefined` (none). -/
def quantizeToScale (h : HarmonyManager) (note : ℤ) : Option ℤ :=
  match h.scale with
  | [] => none
  | s0 :: _ =>
    let octave : ℤ := Int.fdiv note 12 - 1
    let semitone : ℤ := Int.tmod note 12
    let keyOffset : ℤ := Int.tmod (semitone - (h.rootNote : ℤ) + 12) 12
    let best := h.scale.foldl
      (fun acc interval =>
        let diff := |keyOffset - interval|
        if diff < acc.2 then (interval, diff) else acc)
      (s0, |keyOffset - s0|)
    some (octave * 12 + 12 + (h.rootNote : ℤ) + best.1)

/-- The triad stacked from scale degrees degree, degree+2, degree+4 —
the body shared by every quality branch of harmony.ts buildChord. -/
def buildChordDegree (h : HarmonyManager) (degree : ℤ) (octave : ℤ) :
    List (Option ℤ) :=
  [h.getScaleNote degree octave,
   h.getScaleNote (degree + 2) octave,
   h.getScaleNote (degree + 4) octave]

/-- harmony.ts, buildChord: resolve the Roman numeral and stack a diatonic
triad.  An unknown label recurses into the I chord (degree 0); the three
quality branches of the source build the same diatonic stack. -/
def buildChord (h : HarmonyManager) (roman : String) (octave : ℤ) :
    List (Option ℤ) :=
  match lookupA roman ROMAN_TO_DEGREE with
  | none => h.buildChordDegree 0 octave
  | some (degree, ty) =>
    match ty with
    | ChordType.major => h.buildChordDegree (degree : ℤ) octave
    | ChordType.minor => h.buildChordDegree (degree : ℤ) octave
    | ChordType.diminished => h.buildChordDegree (degree : ℤ) octave

/-- harmony.ts, getChord: public wrapper around buildChord. -/
def getChord (h : HarmonyManager) (roman : String) (octave : ℤ) :
    List (Option ℤ) :=
  h.buildChord roman octave

/-- harmony.ts, setKey: resolve the root name (default 0) and mode (default
major), update key/mode/scale, then rebuild the tonic chord unless locked.
The chord is built against the already-updated state, as in the source. -/
def setKey (h : HarmonyManager) (key : String) (mode : String) :
    HarmonyManager :=
  let rootNote := (lookupA key NOTE_MAP).getD 0
  let intervals := (lookupA mode MODES).getD MODES_major
  let h1 := { h with rootNote := rootNote, key := key, mode := mode,
                     scale := intervals }
  if h1.isLocked then h1 else { h1 with chord := h1.buildChord "I" 4 }

/-- harmony.ts, setScale: install explicit intervals and tag the mode as
custom.  The stored chord is not recomputed. -/
def setScale (h : HarmonyManager) (intervals : List ℤ) : HarmonyManager :=
  { h with scale := intervals, mode := "custom" }

/-- harmony.ts, setChord: manual chord override (plain numbers, never NaN). -/
def setChord (h : HarmonyManager) (notes : List ℤ) : HarmonyManager :=
  { h with chord := notes.map some }

/-- harmony.ts, setChordFromRoman: rebuild the chord from a label unless
locked. -/
def setChordFromRoman (h : HarmonyManager) (roman : String) (octave : ℤ) :
    HarmonyManager :=
  if h.isLocked then h else { h with chord := h.buildChord roman octave }

/-- harmony.ts, lockHarmony. -/
def lockHarmony (h : HarmonyManager) : HarmonyManager :=
  { h with isLocked := true }

/-- harmony.ts, unlockHarmony. -/
def unlockHarmony (h : HarmonyManager) : HarmonyManager :=
  { h with isLocked := false }

/-- harmony.ts, updateKeyName: first NOTE_MAP entry matching the root with a
natural name, else the first matching entry at all, else leave key as is. -/
def findKeyName (root : ℕ) : Option String :=
  match NOTE_MAP.find?
      (fun p => decide (p.2 = root) && !(p.1.contains '#') &&
        !(p.1.contains 'b')) with
  | some p => some p.1
  | none => (NOTE_MAP.find? (fun p => decide (p.2 = root))).map Prod.fst

/-- harmony.ts, updateKeyName applied to the state. -/
def updateKeyName (h : HarmonyManager) : HarmonyManager :=
  match findKeyName h.rootNote with
  | some name => { h with key := name }
  | none => h

/-- harmony.ts, ModulationType. -/
inductive ModulationType where
  | relative
  | dominant
  | subdominant
deriving DecidableEq

/-- harmony.ts, modulateRelative: toggle major and minor with the ±3
semitone root shift; other modes only refresh the key name. -/
def modulateRelative (h : HarmonyManager) : HarmonyManager :=
  let h1 :=
    if h.mode = "major" then
      { h with rootNote := (h.rootNote + 9) % 12, mode := "minor",
               scale := MODES_minor }
    else if h.mode = "minor" then
      { h with rootNote := (h.rootNote + 3) % 12, mode := "major",
               scale := MODES_major }
    else h
  h1.updateKeyName

/-- harmony.ts, modulateDominant: root up a perfect fifth, mod 12. -/
def modulateDominant (h : HarmonyManager) : HarmonyManager :=
  updateKeyName { h with rootNote := (h.rootNote + 7) % 12 }

/-- harmony.ts, modulateSubdominant: root up a perfect fourth, mod 12. -/
def modulateSubdominant (h : HarmonyManager) : HarmonyManager :=
  updateKeyName { h with rootNote := (h.rootNote + 5) % 12 }

/-- harmony.ts, modulate: dispatch on the modulation type. -/
def modulate (h : HarmonyManager) : ModulationType → HarmonyManager
  | ModulationType.relative => h.modulateRelative
  | ModulationType.dominant => h.modulateDominant
  | ModulationType.subdominant => h.modulateSubdominant

/-- harmony.ts, setChordPool. -/
def setChordPool (h : HarmonyManager) (chords : List String) :
    HarmonyManager :=
  { h with chordPool := chords }

end HarmonyManager

/-- The default C-major harmonic state: root C, major scale, tonic triad
C4-E4-G4, unlocked, default chord pool — the state the class fields describe
for the default construction arguments. -/
def defaultCmajor : HarmonyManager :=
  { rootNote := 0, key := "C", mode := "major", scale := MODES_major,
    chord := [some 60, some 64, some 67], isLocked := false,
    chordPool := ["I", "IV", "V", "vi"] }

/-- Reference definition written from the specification wording for
getScaleNote, to compare against the source embedding: the degree wraps by
the mathematical (always nonnegative) modulus of the scale length, each
full wrap shifts 12 semitones via the floor quotient, and octave 4 anchors
MIDI 60 plus the root pitch class. -/
def specScaleNote (h : HarmonyManager) (degree : ℤ) (octave : ℤ) :
    Option ℤ :=
  match h.scale.get? (degree % (h.scale.length : ℤ)).toNat with
  | none => none
  | some interval =>
    some (60 + (octave - 4) * 12 + (h.rootNote : ℤ) + interval +
      12 * Int.fdiv degree (h.scale.length : ℤ))

/-- The default C-major state after setScale with the seven-interval custom
set 0..6: the stored chord is still the old C-major tonic triad. -/
def identScale : HarmonyManager :=
  defaultCmajor.setScale [0, 1, 2, 3, 4, 5, 6]

/-! ## Part 2: the SynthEngine voice lifecycle (src/core/synth-engine.ts) -/

/-- One entry of the `activeVoices` map (types.ts, ActiveVoice) together
with the state of its backend synth.  `releaseAt` is the last release time
scheduled on the synth envelope by `triggerRelease` / the duration argument
of `triggerAttackRelease` (`none` while the note sustains). -/
@[ext]
structure VoiceRec where
  startTime : ℤ
  note : ℤ
  velocity : ℤ
  releaseAt : Option ℤ
deriving DecidableEq

/-- The SynthEngine instance state.  `registered` holds the keys of the
`voices` definition map (voice factories are opaque); `activeVoices` is the
insertion-ordered id-to-record map with numeric ids standing for the
`voice_<n>` strings; `timers` are the pending `setTimeout` cleanups as
(delay in seconds, voice id) pairs; `now` is the audio clock, which does not
advance within a synchronous call sequence; `disposed` records the order of
completed synth disposals. -/
@[ext]
structure SynthEngine where
  polyphony : ℕ
  registered : List String
  activeVoices : List (ℕ × VoiceRec)
  nextVoiceId : ℕ
  timers : List (ℤ × ℕ)
  now : ℤ
  initialized : Bool
  disposed : List ℕ
deriving DecidableEq

namespace SynthEngine

/-- Default release time of stopNote (synth-engine.ts, releaseTime = 0.1,
i.e. 10 centiseconds). -/
def defaultRelease : ℤ := 10

/-- Quick release time used by stealVoice (synth-engine.ts, 0.05 s = 5). -/
def stealRelease : ℤ := 5

/-- JS `Map.set`: replace the record in place when the key is present,
otherwise append a fresh entry. -/
def setVoice (l : List (ℕ × VoiceRec)) (id : ℕ) (rec : VoiceRec) :
    List (ℕ × VoiceRec) :=
  match lookupA id l with
  | some _ => l.map (fun p => if p.1 = id then (id, rec) else p)
  | none => l ++ [(id, rec)]

/-- synth-engine.ts, stopNote: look the voice up (unknown ids return at
once), schedule a release on its synth at now + releaseTime, and schedule a
cleanup after (releaseTime + 1) seconds. -/
def stopNote (s : SynthEngine) (voiceId : ℕ) (releaseTime : ℤ) :
    SynthEngine :=
  match lookupA voiceId s.activeVoices with
  | none => s
  | some _ =>
    { s with
      activeVoices := s.activeVoices.map
        (fun p => if p.1 = voiceId then
            (p.1, { p.2 with releaseAt := some (s.now + releaseTime) })
          else p),
      timers := s.timers ++ [(releaseTime + 100, voiceId)] }

/-- synth-engine.ts, stealVoice inner loop: fold over the registry keeping
the entry with the strictly smallest startTime; `none` is the initial
(oldestId = null, oldestTime = Infinity) accumulator, which the first entry
always beats. -/
def findOldestVoice (l : List (ℕ × VoiceRec)) : Option (ℕ × ℤ) :=
  l.foldl
    (fun acc p =>
      match acc with
      | none => some (p.1, p.2.startTime)
      | some (oldestId, oldestTime) =>
        if p.2.startTime < oldestTime then some (p.1, p.2.startTime)
        else some (oldestId, oldestTime))
    none

/-- synth-engine.ts, stealVoice: quick-release the oldest voice, if any. -/
def stealVoice (s : SynthEngine) : SynthEngine :=
  match findOldestVoice s.activeVoices with
  | none => s
  | some (oldestId, _) => s.stopNote oldestId stealRelease

/-- synth-engine.ts, cleanupVoice: dispose the synth and drop the registry
entry; a stale id (already removed) returns at once. -/
def cleanupVoice (s : SynthEngine) (voiceId : ℕ) : SynthEngine :=
  match lookupA voiceId s.activeVoices with
  | none => s
  | some _ =>
    { s with
      activeVoices := s.activeVoices.filter (fun p => decide (p.1 ≠ voiceId)),
      disposed := s.disposed ++ [voiceId] }

/-- synth-engine.ts, playNote: reject when uninitialized; steal the oldest
voice when the registry has reached the polyphony ceiling; reject unknown
voice kinds with the sentinel (after the steal, as in the source); otherwise
mint a fresh id, record the voice, trigger the attack (with a scheduled
cleanup at duration + 0.1 s when a duration is given), and return the id.
The sentinel return is `none`, standing for the empty-string id. -/
def playNote (s : SynthEngine) (note : ℤ) (velocity : ℤ)
    (duration : Option ℤ) (voiceName : String) : SynthEngine × Option ℕ :=
  if s.initialized = false then (s, none)
  else
    let s1 := if s.polyphony ≤ s.activeVoices.length then s.stealVoice else s
    if voiceName ∉ s1.registered then (s1, none)
    else
      let voiceId := s1.nextVoiceId
      let voiceRec : VoiceRec :=
        { startTime := s1.now, note := note, velocity := velocity,
          releaseAt := duration.map (fun d => s1.now + d) }
      let s2 :=
        { s1 with
          activeVoices := setVoice s1.activeVoices voiceId voiceRec,
          nextVoiceId := s1.nextVoiceId + 1,
          timers := match duration with
            | some d => s1.timers ++ [(d + 10, voiceId)]
            | none => s1.timers }
      (s2, some voiceId)

/-- synth-engine.ts, stopAllNotes: stop every active voice with the default
release time. -/
def stopAllNotes (s : SynthEngine) : SynthEngine :=
  (s.activeVoices.map Prod.fst).foldl
    (fun st id => st.stopNote id defaultRelease) s

/-- The ids of all pending cleanup timers. -/
def timerIds (s : SynthEngine) : List ℕ := s.timers.map Prod.snd

/-- Fire every pending cleanup timer: the explicit step in which the
scheduled `cleanupVoice` callbacks run. -/
def drainTimers (s : SynthEngine) : SynthEngine :=
  (timerIds s).foldl cleanupVoice { s with timers := [] }

end SynthEngine

/-- A caller-visible SynthEngine operation: a playNote or a stopNote call
with its arguments. -/
inductive SynthOp where
  | play (note : ℤ) (velocity : ℤ) (duration : Option ℤ) (kind : String)
  | stop (id : ℕ) (t : ℤ)

/-- One operation under the prompt-cleanup schedule: every pending cleanup
timer fires before a playNote call is serviced (the timers are minutes of
real time shorter than the gap to the next allocation), while stopNote runs
directly. -/
def promptStep (s : SynthEngine) : SynthOp → SynthEngine
  | SynthOp.play n v d k => ((SynthEngine.drainTimers s).playNote n v d k).1
  | SynthOp.stop id t => s.stopNote id t

/-- A whole call sequence under the prompt-cleanup schedule. -/
def promptRun (s : SynthEngine) (ops : List SynthOp) : SynthEngine :=
  ops.foldl promptStep s

/-- The registry entries whose key is not covered by the id list. -/
def keyFree (ids : List ℕ) : ℕ × VoiceRec → Bool :=
  fun p => decide (p.1 ∉ ids)

/-- The number of registry voices with no pending cleanup timer — the
voices that survive once every scheduled cleanup has fired. -/
def untimeredCount (s : SynthEngine) : ℕ :=
  s.activeVoices.countP (keyFree (SynthEngine.timerIds s))

/-- A sustained voice allocated at time t (fixed note and velocity). -/
def voiceAt (t : ℤ) : VoiceRec :=
  { startTime := t, note := 60, velocity := 70, releaseAt := none }

/-- An initialized engine holding three voices allocated at times 5, 2, 9. -/
def engine529 : SynthEngine :=
  { polyphony := 3, registered := ["synth"],
    activeVoices := [(0, voiceAt 5), (1, voiceAt 2), (2, voiceAt 9)],
    nextVoiceId := 3, timers := [], now := 10, initialized := true,
    disposed := [] }

/-- An initialized engine with polyphony ceiling 1 and an empty registry. -/
def engineEmpty : SynthEngine :=
  { polyphony := 1, registered := ["synth"], activeVoices := [],
    nextVoiceId := 0, timers := [], now := 0, initialized := true,
    disposed := [] }

/-- An initialized engine with polyphony ceiling 1, exactly at the ceiling:
one sustained (never released) active voice. -/
def engineA : SynthEngine :=
  { polyphony := 1, registered := ["synth"],
    activeVoices := [(0, voiceAt 0)], nextVoiceId := 1, timers := [],
    now := 3, initialized := true, disposed := [] }

/-! ## Theorems -/

open HarmonyManager SynthEngine

/-- Helper: updateKeyName only rewrites the display key name. -/
theorem updateKeyName_rootNote (h : HarmonyManager) :
    h.updateKeyName.rootNote = h.rootNote := by
  unfold HarmonyManager.updateKeyName
  cases findKeyName h.rootNote <;> rfl

/-- C6: after lockHarmony, a setKey call updates the root, key, mode and
scale fields from the (default-resolved) lookups, leaves the stored chord
exactly unchanged, and leaves the lock in force, so chord recomputation
stays suspended. -/
theorem setKey_locked_preserves_chord (h : HarmonyManager) (k m : String) :
    ((h.lockHarmony).setKey k m).chord = h.chord ∧
    ((h.lockHarmony).setKey k m).scale = (lookupA m MODES).getD MODES_major ∧
    ((h.lockHarmony).setKey k m).key = k ∧
    ((h.lockHarmony).setKey k m).mode = m ∧
    ((h.lockHarmony).setKey k m).rootNote = (lookupA k NOTE_MAP).getD 0 ∧
    ((h.lockHarmony).setKey k m).isLocked = true := by
  simp [HarmonyManager.setKey, HarmonyManager.lockHarmony]

/-- C9: modulate dominant adds 7 and modulate subdominant adds 5 to the
root pitch class modulo 12, so one dominant modulation followed by one
subdominant modulation restores the original root pitch class. -/
theorem modulate_dominant_subdominant_roundtrip (h : HarmonyManager)
    (hr : h.rootNote < 12) :
    (h.modulate ModulationType.dominant).rootNote =
      (h.rootNote + 7) % 12 ∧
    (h.modulate ModulationType.subdominant).rootNote =
      (h.rootNote + 5) % 12 ∧
    ((h.modulate ModulationType.dominant).modulate
        ModulationType.subdominant).rootNote = h.rootNote := by
  refine ⟨?_, ?_, ?_⟩ <;>
    simp [HarmonyManager.modulate, HarmonyManager.modulateDominant,
      HarmonyManager.modulateSubdominant, updateKeyName_rootNote]
  omega

/-- C9 witness: the round trip at the concrete default C-major state. -/
theorem modulate_roundtrip_witness :
    defaultCmajor.rootNote < 12 ∧
    ((defaultCmajor.modulate ModulationType.dominant).modulate
        ModulationType.subdominant).rootNote = defaultCmajor.rootNote :=
  ⟨by decide,
   (modulate_dominant_subdominant_roundtrip defaultCmajor (by decide)).2.2⟩

/-- C10: every Harmony Manager name lookup degrades to its documented
default: an unrecognized root name resolves to pitch class 0, an
unrecognized mode name falls back to the major-mode intervals, and an
unknown Roman-numeral label builds the tonic (degree 0) chord, identical to
the I chord. -/
theorem unknown_name_lookups_default (h : HarmonyManager)
    (k m r : String) (octave : ℤ)
    (hk : lookupA k NOTE_MAP = none) (hm : lookupA m MODES = none)
    (hr : lookupA r ROMAN_TO_DEGREE = none) :
    (h.setKey k m).rootNote = 0 ∧ (h.setKey k m).scale = MODES_major ∧
    h.buildChord r octave = h.buildChordDegree 0 octave ∧
    h.getChord r octave = h.getChord "I" octave := by
  have hI : lookupA "I" ROMAN_TO_DEGREE = some (0, ChordType.major) := by
    decide
  refine ⟨?_, ?_, ?_, ?_⟩ <;>
    simp [HarmonyManager.setKey, HarmonyManager.buildChord,
      HarmonyManager.getChord, hk, hm, hr, hI] <;>
    split <;> rfl

/-- C10 witness: concrete unknown names resolve to the defaults. -/
theorem unknown_name_lookups_default_witness :
    lookupA "H" NOTE_MAP = none ∧
    lookupA "superlocrian" MODES = none ∧
    lookupA "IX" ROMAN_TO_DEGREE = none ∧
    ((defaultCmajor.setKey "H" "superlocrian").rootNote = 0 ∧
     (defaultCmajor.setKey "H" "superlocrian").scale = MODES_major ∧
     defaultCmajor.buildChord "IX" 4 = defaultCmajor.buildChordDegree 0 4 ∧
     defaultCmajor.getChord "IX" 4 = defaultCmajor.getChord "I" 4) :=
  ⟨by decide, by decide, by decide,
   unknown_name_lookups_default defaultCmajor "H" "superlocrian" "IX" 4
     (by decide) (by decide) (by decide)⟩

/-- C3: the round trip fails on the code.  In the key of B major the I
chord at octave 4 is [71, 75, 78], yet quantizeToScale maps the chord tone
75 to 87 — one octave above the input — because the return expression adds
rootNote + interval (11 + 4 = 15 here) on top of the input octave base
without reducing the sum modulo 12.  This contradicts the function's own
documentation (quantize to the nearest scale note): 75 is itself in scale
and should be a fixed point. -/
theorem quantize_chord_tone_bug :
    (defaultCmajor.setKey "B" "major").getChord "I" 4 =
      [some 71, some 75, some 78] ∧
    quantizeToScale (defaultCmajor.setKey "B" "major") 75 = some 87 ∧
    quantizeToScale (defaultCmajor.setKey "B" "major") 75 ≠ some 75 := by
  decide

/-- C4 counterexample: at degree -1 the JS remainder is negative, the scale
read is out of bounds, and getScaleNote yields NaN (none) instead of the
wrapped pitch 59 that the claimed formula gives, so the formula does not
hold for every input. -/
theorem getScaleNote_negative_degree_counterexample :
    defaultCmajor.getScaleNote (-1) 4 = none ∧
    specScaleNote defaultCmajor (-1) 4 = some 59 ∧
    defaultCmajor.getScaleNote (-1) 4 ≠ specScaleNote defaultCmajor (-1) 4 := by
  decide

/-- C4 amended: for every nonnegative degree (where the JS remainder agrees
with the mathematical modulus) getScaleNote computes exactly the claimed
formula: wrap the degree modulo the scale length, shift 12 semitones per
full floor-quotient wrap, anchor octave 4 at MIDI 60 plus the root. -/
theorem getScaleNote_eq_spec_of_nonneg (h : HarmonyManager)
    (degree octave : ℤ) (hd : 0 ≤ degree) :
    h.getScaleNote degree octave = specScaleNote h degree octave := by
  have hb : (0 : ℤ) ≤ (h.scale.length : ℤ) := Int.natCast_nonneg _
  have hge : 0 ≤ degree % (h.scale.length : ℤ) := by
    rcases eq_or_ne ((h.scale.length : ℤ)) 0 with h0 | h0
    · rw [h0, Int.emod_zero]; exact hd
    · exact Int.emod_nonneg _ h0
  simp only [HarmonyManager.getScaleNote, specScaleNote,
    Int.tmod_eq_emod hd hb, if_neg (not_lt.mpr hge)]
  cases hg : h.scale.get? ((degree % (h.scale.length : ℤ)).toNat) with
  | none => rfl
  | some interval =>
    simp only [MIDDLE_C]
    ring_nf

/-- C4 witness: the formula agreement at the concrete degree 9. -/
theorem getScaleNote_eq_spec_witness :
    (0 : ℤ) ≤ 9 ∧
    defaultCmajor.getScaleNote 9 4 = specScaleNote defaultCmajor 9 4 :=
  ⟨by decide, getScaleNote_eq_spec_of_nonneg defaultCmajor 9 4 (by decide)⟩

/-- Helper: the voice-stealing fold, started from a candidate (i, t),
returns an entry whose startTime is minimal among the candidate and the
remaining list, and which is either the candidate or drawn from the list. -/
theorem findOldest_fold_spec (l : List (ℕ × VoiceRec)) :
    ∀ (i : ℕ) (t : ℤ),
      ∃ j u,
        l.foldl
          (fun acc p =>
            match acc with
            | none => some (p.1, p.2.startTime)
            | some (oldestId, oldestTime) =>
              if p.2.startTime < oldestTime then some (p.1, p.2.startTime)
              else some (oldestId, oldestTime))
          (some (i, t)) = some (j, u) ∧
        u ≤ t ∧ (∀ p ∈ l, u ≤ p.2.startTime) ∧
        ((j, u) = (i, t) ∨ ∃ r0, (j, r0) ∈ l ∧ r0.startTime = u) := by
  induction l with
  | nil =>
    intro i t
    exact ⟨i, t, rfl, le_refl t, by simp, Or.inl rfl⟩
  | cons p rest ih =>
    intro i t
    by_cases hpt : p.2.startTime < t
    · obtain ⟨j, u, heq, hle, hall, horig⟩ := ih p.1 p.2.startTime
      refine ⟨j, u, ?_, le_trans hle (le_of_lt hpt), ?_, ?_⟩
      · simpa [hpt] using heq
      · intro q hq
        rcases List.mem_cons.mp hq with hq | hq
        · rw [hq]; exact hle
        · exact hall q hq
      · rcases horig with heqc | ⟨r0, hr0, hst⟩
        · have hj : j = p.1 := congrArg Prod.fst heqc
          have hu : u = p.2.startTime := congrArg Prod.snd heqc
          refine Or.inr ⟨p.2, ?_, hu.symm⟩
          rw [hj]
          exact List.mem_cons_self _ _
        · exact Or.inr ⟨r0, List.mem_cons_of_mem _ hr0, hst⟩
    · obtain ⟨j, u, heq, hle, hall, horig⟩ := ih i t
      refine ⟨j, u, ?_, hle, ?_, ?_⟩
      · simpa [hpt] using heq
      · intro q hq
        rcases List.mem_cons.mp hq with hq | hq
        · rw [hq]; exact le_trans hle (not_lt.mp hpt)
        · exact hall q hq
      · rcases horig with heqc | ⟨r0, hr0, hst⟩
        · exact Or.inl heqc
        · exact Or.inr ⟨r0, List.mem_cons_of_mem _ hr0, hst⟩

/-- C2: when the registry is nonempty, stealVoice resolves to stopNote on a
voice whose allocation timestamp (startTime) is minimal over the whole
registry, using the quick 0.05 s release, which is strictly below the 0.1 s
default release of stopNote; and a playNote at the polyphony ceiling
records its fresh voice on top of the already-stolen state, so the steal
happens synchronously before the new record is created. -/
theorem stealVoice_picks_oldest (s : SynthEngine)
    (hne : s.activeVoices ≠ []) :
    (∃ oldestId oldestTime,
      findOldestVoice s.activeVoices = some (oldestId, oldestTime) ∧
      (∃ r0, (oldestId, r0) ∈ s.activeVoices ∧
        r0.startTime = oldestTime) ∧
      (∀ p ∈ s.activeVoices, oldestTime ≤ p.2.startTime) ∧
      s.stealVoice = s.stopNote oldestId stealRelease ∧
      stealRelease < defaultRelease) ∧
    (∀ (n v : ℤ) (k : String), s.initialized = true →
      s.polyphony ≤ s.activeVoices.length → k ∈ s.stealVoice.registered →
      (s.playNote n v none k).1.activeVoices =
        SynthEngine.setVoice s.stealVoice.activeVoices
          s.stealVoice.nextVoiceId
          { startTime := s.stealVoice.now, note := n, velocity := v,
            releaseAt := none }) := by
  refine ⟨?_, ?_⟩
  case refine_2 =>
    intro n v k hinit hcap hreg
    unfold SynthEngine.playNote
    rw [if_neg (by rw [hinit]; exact fun hcon => Bool.noConfusion hcon)]
    dsimp only
    rw [if_pos hcap, if_neg (not_not_intro hreg)]
    rfl
  obtain ⟨p, rest, hl⟩ := List.exists_cons_of_ne_nil hne
  obtain ⟨j, u, heq, hle, hall, horig⟩ :=
    findOldest_fold_spec rest p.1 p.2.startTime
  have hfind : findOldestVoice s.activeVoices = some (j, u) := by
    rw [hl]; exact heq
  refine ⟨j, u, hfind, ?_, ?_, ?_, by decide⟩
  · rcases horig with heqc | ⟨r0, hr0, hst⟩
    · have hj : j = p.1 := congrArg Prod.fst heqc
      have hu : u = p.2.startTime := congrArg Prod.snd heqc
      refine ⟨p.2, ?_, hu.symm⟩
      rw [hl, hj]
      exact List.mem_cons_self _ _
    · exact ⟨r0, by rw [hl]; exact List.mem_cons_of_mem _ hr0, hst⟩
  · intro q hq
    rw [hl] at hq
    rcases List.mem_cons.mp hq with hq | hq
    · rw [hq]; exact hle
    · exact hall q hq
  · unfold SynthEngine.stealVoice
    rw [hfind]

/-- C2 witness: with voices allocated at timestamps [5, 2, 9] the fold
selects the voice allocated at 2 (id 1), and stealing quick-releases it. -/
theorem stealVoice_picks_oldest_witness :
    engine529.activeVoices ≠ [] ∧
    ((∃ oldestId oldestTime,
      findOldestVoice engine529.activeVoices =
        some (oldestId, oldestTime) ∧
      (∃ r0, (oldestId, r0) ∈ engine529.activeVoices ∧
        r0.startTime = oldestTime) ∧
      (∀ p ∈ engine529.activeVoices, oldestTime ≤ p.2.startTime) ∧
      engine529.stealVoice = engine529.stopNote oldestId stealRelease ∧
      stealRelease < defaultRelease) ∧
    (∀ (n v : ℤ) (k : String), engine529.initialized = true →
      engine529.polyphony ≤ engine529.activeVoices.length →
      k ∈ engine529.stealVoice.registered →
      (engine529.playNote n v none k).1.activeVoices =
        SynthEngine.setVoice engine529.stealVoice.activeVoices
          engine529.stealVoice.nextVoiceId
          { startTime := engine529.stealVoice.now, note := n, velocity := v,
            releaseAt := none })) ∧
    findOldestVoice engine529.activeVoices = some (1, 2) := by
  refine ⟨by decide, stealVoice_picks_oldest engine529 (by decide), by decide⟩

/-- Helper: stopNote never changes the registry size, the id counter, or
any engine field other than the touched voice record and the timer list. -/
theorem stopNote_fields (s : SynthEngine) (id : ℕ) (t : ℤ) :
    (s.stopNote id t).activeVoices.length = s.activeVoices.length ∧
    (s.stopNote id t).nextVoiceId = s.nextVoiceId ∧
    (s.stopNote id t).registered = s.registered ∧
    (s.stopNote id t).polyphony = s.polyphony ∧
    (s.stopNote id t).initialized = s.initialized ∧
    (s.stopNote id t).now = s.now ∧
    (s.stopNote id t).disposed = s.disposed := by
  unfold SynthEngine.stopNote
  cases lookupA id s.activeVoices <;> simp

/-- Helper: stealVoice inherits the frame properties of stopNote. -/
theorem stealVoice_fields (s : SynthEngine) :
    s.stealVoice.activeVoices.length = s.activeVoices.length ∧
    s.stealVoice.nextVoiceId = s.nextVoiceId ∧
    s.stealVoice.registered = s.registered ∧
    s.stealVoice.polyphony = s.polyphony ∧
    s.stealVoice.initialized = s.initialized ∧
    s.stealVoice.now = s.now ∧
    s.stealVoice.disposed = s.disposed := by
  unfold SynthEngine.stealVoice
  cases findOldestVoice s.activeVoices with
  | none => exact ⟨rfl, rfl, rfl, rfl, rfl, rfl, rfl⟩
  | some q => exact stopNote_fields s q.1 stealRelease

/-- C7 counterexample: at the polyphony ceiling, playNote with an
unregistered voice kind returns the sentinel but is not a no-op — the steal
runs before the failed registry lookup, so the oldest voice is released
(releaseAt becomes now + 0.05 s) and its cleanup is scheduled. -/
theorem playNote_unknown_kind_not_noop :
    (engineA.playNote 60 70 none "pluck").2 = none ∧
    (engineA.playNote 60 70 none "pluck").1 ≠ engineA ∧
    lookupA 0 (engineA.playNote 60 70 none "pluck").1.activeVoices =
      some { startTime := 0, note := 60, velocity := 70,
             releaseAt := some 8 } ∧
    (engineA.playNote 60 70 none "pluck").1.timers = [(105, 0)] := by
  decide

/-- C7 amended: playNote on an unregistered voice kind returns the sentinel,
never creates a voice record (registry size and id counter unchanged), and
is a complete no-op when the engine is uninitialized or below the polyphony
ceiling; at the ceiling, however, its only effect is the voice steal that
runs before the failed lookup. -/
theorem playNote_unknown_kind_amended (s : SynthEngine)
    (note velocity : ℤ) (duration : Option ℤ) (kind : String)
    (hk : kind ∉ s.registered) :
    (s.playNote note velocity duration kind).2 = none ∧
    (s.playNote note velocity duration kind).1.activeVoices.length =
      s.activeVoices.length ∧
    (s.playNote note velocity duration kind).1.nextVoiceId =
      s.nextVoiceId ∧
    (s.initialized = false →
      (s.playNote note velocity duration kind).1 = s) ∧
    (s.initialized = true → s.activeVoices.length < s.polyphony →
      (s.playNote note velocity duration kind).1 = s) ∧
    (s.initialized = true → s.polyphony ≤ s.activeVoices.length →
      (s.playNote note velocity duration kind).1 = s.stealVoice) := by
  cases hinit : s.initialized with
  | false =>
    simp [SynthEngine.playNote, hinit]
  | true =>
    by_cases hcap : s.polyphony ≤ s.activeVoices.length
    · have hreg : kind ∉ s.stealVoice.registered := by
        rw [(stealVoice_fields s).2.2.1]
        exact hk
      refine ⟨?_, ?_, ?_, ?_, ?_, ?_⟩ <;>
        simp [SynthEngine.playNote, hinit, hcap, hreg,
          (stealVoice_fields s).1, (stealVoice_fields s).2.1]
    · have hreg : kind ∉ s.registered := hk
      refine ⟨?_, ?_, ?_, ?_, ?_, ?_⟩ <;>
        simp [SynthEngine.playNote, hinit, hcap, hreg]

/-- C7 witness: the amended statement at a concrete below-ceiling engine
with an unregistered kind. -/
theorem playNote_unknown_kind_amended_witness :
    "pluck" ∉ engineEmpty.registered ∧
    ((engineEmpty.playNote 60 70 none "pluck").2 = none ∧
     (engineEmpty.playNote 60 70 none "pluck").1.activeVoices.length =
       engineEmpty.activeVoices.length ∧
     (engineEmpty.playNote 60 70 none "pluck").1.nextVoiceId =
       engineEmpty.nextVoiceId ∧
     (engineEmpty.initialized = false →
       (engineEmpty.playNote 60 70 none "pluck").1 = engineEmpty) ∧
     (engineEmpty.initialized = true →
       engineEmpty.activeVoices.length < engineEmpty.polyphony →
       (engineEmpty.playNote 60 70 none "pluck").1 = engineEmpty) ∧
     (engineEmpty.initialized = true →
       engineEmpty.polyphony ≤ engineEmpty.activeVoices.length →
       (engineEmpty.playNote 60 70 none "pluck").1 =
         engineEmpty.stealVoice)) :=
  ⟨by decide,
   playNote_unknown_kind_amended engineEmpty 60 70 none "pluck" (by decide)⟩

/-- Helper: looking up the key touched by an in-place release update
returns the updated record. -/
theorem lookupA_map_release (l : List (ℕ × VoiceRec)) (id : ℕ)
    (w : Option ℤ) :
    lookupA id (l.map (fun p => if p.1 = id then
        (p.1, { p.2 with releaseAt := w }) else p)) =
      (lookupA id l).map (fun r => { r with releaseAt := w }) := by
  induction l with
  | nil => rfl
  | cons p rest ih =>
    by_cases hp : p.1 = id <;> simp [lookupA, hp, ih]

/-- Helper: the in-place release update is idempotent on the registry. -/
theorem map_release_idem (l : List (ℕ × VoiceRec)) (id : ℕ)
    (w : Option ℤ) :
    (l.map (fun p => if p.1 = id then
        (p.1, { p.2 with releaseAt := w }) else p)).map
      (fun p => if p.1 = id then
        (p.1, { p.2 with releaseAt := w }) else p) =
      l.map (fun p => if p.1 = id then
        (p.1, { p.2 with releaseAt := w }) else p) := by
  rw [List.map_map]
  refine List.map_congr_left ?_
  intro p _
  by_cases hp : p.1 = id <;> simp [Function.comp, hp]

/-- Helper: after filtering a key out, looking it up fails. -/
theorem lookupA_filter_ne (l : List (ℕ × VoiceRec)) (id : ℕ) :
    lookupA id (l.filter (fun p => decide (p.1 ≠ id))) = none := by
  induction l with
  | nil => rfl
  | cons p rest ih =>
    by_cases hp : p.1 = id
    · simpa [hp] using ih
    · simpa [List.filter, hp, lookupA] using ih

/-- Helper: disposal is idempotent — a second cleanupVoice on the same id
finds nothing and returns the state unchanged. -/
theorem cleanupVoice_idem (s : SynthEngine) (id : ℕ) :
    (s.cleanupVoice id).cleanupVoice id = s.cleanupVoice id := by
  cases hlk : lookupA id s.activeVoices with
  | none =>
    have h1 : s.cleanupVoice id = s := by
      simp [SynthEngine.cleanupVoice, hlk]
    rw [h1]
    exact h1
  | some v =>
    have h2 : lookupA id (s.cleanupVoice id).activeVoices = none := by
      simp only [SynthEngine.cleanupVoice, hlk]
      exact lookupA_filter_ne s.activeVoices id
    generalize s.cleanupVoice id = X at h2 ⊢
    simp [SynthEngine.cleanupVoice, h2]

/-- C8: stopNote is safe on stale handles and idempotent: an unknown or
already-disposed id is a no-op; a second stopNote on the same id leaves the
registry and every voice record exactly as after the first (the release is
re-scheduled at the identical time, the clock not advancing between
synchronous calls), and once pending cleanups fire the two runs produce
identical states; and double disposal of a voice id is a no-op the second
time. -/
theorem stopNote_idempotent_safe (s : SynthEngine) (id : ℕ) (t : ℤ) :
    (lookupA id s.activeVoices = none → s.stopNote id t = s) ∧
    ((s.stopNote id t).stopNote id t).activeVoices =
      (s.stopNote id t).activeVoices ∧
    SynthEngine.drainTimers ((s.stopNote id t).stopNote id t) =
      SynthEngine.drainTimers (s.stopNote id t) ∧
    (s.cleanupVoice id).cleanupVoice id = s.cleanupVoice id := by
  have hpart1 : lookupA id s.activeVoices = none → s.stopNote id t = s := by
    intro hnone
    simp [SynthEngine.stopNote, hnone]
  cases hlk : lookupA id s.activeVoices with
  | none =>
    have h1 := hpart1 hlk
    refine ⟨fun _ => h1, ?_, ?_, cleanupVoice_idem s id⟩ <;> rw [h1, h1]
  | some v =>
    have hT2 : (s.stopNote id t).timers = s.timers ++ [(t + 100, id)] := by
      simp only [SynthEngine.stopNote, hlk]
    have hlkm : lookupA id (s.activeVoices.map (fun p => if p.1 = id then
        (p.1, { p.2 with releaseAt := some (s.now + t) }) else p)) =
        some { v with releaseAt := some (s.now + t) } := by
      rw [lookupA_map_release, hlk]
      rfl
    have hsecond : (s.stopNote id t).stopNote id t =
        { s.stopNote id t with
          timers := (s.stopNote id t).timers ++ [(t + 100, id)] } := by
      simp only [SynthEngine.stopNote, hlk, hlkm, map_release_idem]
    refine ⟨fun hcon => absurd hcon (Option.some_ne_none v), ?_, ?_,
      cleanupVoice_idem s id⟩
    · rw [hsecond]
    · rw [hsecond]
      unfold SynthEngine.drainTimers SynthEngine.timerIds
      rw [hT2]
      simp only [List.map_append, List.foldl_append, List.map_cons,
        List.map_nil, List.foldl_cons, List.foldl_nil]
      exact cleanupVoice_idem _ id

/-- C8 witness: the conjunction at a concrete one-voice engine. -/
theorem stopNote_idempotent_safe_witness :
    (lookupA 0 engineA.activeVoices = none → engineA.stopNote 0 10 = engineA) ∧
    ((engineA.stopNote 0 10).stopNote 0 10).activeVoices =
      (engineA.stopNote 0 10).activeVoices ∧
    SynthEngine.drainTimers ((engineA.stopNote 0 10).stopNote 0 10) =
      SynthEngine.drainTimers (engineA.stopNote 0 10) ∧
    (engineA.cleanupVoice 0).cleanupVoice 0 = engineA.cleanupVoice 0 :=
  stopNote_idempotent_safe engineA 0 10

/-- Helper: any in-range note of the identity scale pins down its wrapped
index: a successful getScaleNote on identScale yields a remainder k with
0 ≤ k < 7, x ≡ k mod 7, and the stated pitch value. -/
theorem identScale_note_eq (x oct w : ℤ)
    (hx : identScale.getScaleNote x oct = some w) :
    ∃ k : ℤ, 0 ≤ k ∧ k < 7 ∧ (7 : ℤ) ∣ (x - k) ∧
      60 + (oct - 4) * 12 + k + Int.fdiv x 7 * 12 = w := by
  have hxe : identScale.getScaleNote x oct =
      (if Int.tmod x 7 < 0 then none
       else
         match ([0, 1, 2, 3, 4, 5, 6] : List ℤ).get?
             (Int.tmod x 7).toNat with
         | none => none
         | some interval =>
             some (60 + (oct - 4) * 12 + ((0 : ℕ) : ℤ) + interval +
               Int.fdiv x 7 * 12)) := rfl
  rw [hxe] at hx
  have hlt : Int.tmod x 7 < 7 := Int.tmod_lt_of_pos x (by norm_num)
  by_cases hneg : Int.tmod x 7 < 0
  · rw [if_pos hneg] at hx
    exact Option.noConfusion hx
  · have h0k : 0 ≤ Int.tmod x 7 := not_lt.mp hneg
    have htn : (Int.tmod x 7).toNat < 7 := by omega
    have hdec : ∀ n : ℕ, n < 7 →
        ([0, 1, 2, 3, 4, 5, 6] : List ℤ).get? n = some (n : ℤ) := by decide
    rw [if_neg hneg, hdec _ htn] at hx
    have hval : 60 + (oct - 4) * 12 + ((0 : ℕ) : ℤ) +
        ((Int.tmod x 7).toNat : ℤ) + Int.fdiv x 7 * 12 = w :=
      Option.some.inj hx
    have htnc : ((Int.tmod x 7).toNat : ℤ) = Int.tmod x 7 :=
      Int.toNat_of_nonneg h0k
    rw [htnc] at hval
    refine ⟨Int.tmod x 7, h0k, hlt,
      ⟨Int.tdiv x 7, by rw [Int.tmod_def]; ring⟩, ?_⟩
    push_cast at hval
    linarith [hval]

/-- C5 counterexample: from the default C-major state (whose chord is the
reconstructible tonic triad), setScale to the custom interval set 0..6
leaves the stored chord [60, 64, 67] untouched, yet in the new state no
degree at any octave builds that triad — consecutive diatonic stacks of the
new scale can never span the major third 64 - 60 = 4. -/
theorem chord_reconstruct_counterexample :
    identScale.isLocked = false ∧
    identScale.chord = [some 60, some 64, some 67] ∧
    ∀ (d oct : ℤ),
      identScale.buildChordDegree d oct ≠ identScale.chord := by
  refine ⟨rfl, rfl, ?_⟩
  intro d oct hEq
  have hch : identScale.chord = [some 60, some 64, some 67] := rfl
  rw [hch] at hEq
  simp only [HarmonyManager.buildChordDegree, List.cons.injEq,
    List.nil_eq] at hEq
  obtain ⟨h60, h64, -⟩ := hEq
  obtain ⟨k, hk0, hk7, hkd, hkeq⟩ := identScale_note_eq d oct 60 h60
  obtain ⟨k2, hk20, hk27, hk2d, hk2eq⟩ :=
    identScale_note_eq (d + 2) oct 64 h64
  generalize hq : Int.fdiv d 7 = q at hkeq
  generalize hq2 : Int.fdiv (d + 2) 7 = q2 at hk2eq
  omega

/-- C5 amended: in the unlocked state the reconstructibility invariant is
preserved by the chord-recomputing operations setKey and setChordFromRoman
(the stored chord is a degree-built triad of the updated state), but not in
general by setScale or modulate, which leave the stored chord untouched
while changing the scale or root it was built from. -/
theorem chord_reconstruct_amended (h : HarmonyManager)
    (k m roman : String) (octave : ℤ) (hun : h.isLocked = false) :
    (∃ d oct : ℤ,
      (h.setKey k m).buildChordDegree d oct = (h.setKey k m).chord) ∧
    (∃ d oct : ℤ,
      (h.setChordFromRoman roman octave).buildChordDegree d oct =
        (h.setChordFromRoman roman octave).chord) := by
  constructor
  · refine ⟨0, 4, ?_⟩
    simp only [HarmonyManager.setKey, hun, if_false]
    have hI : lookupA "I" ROMAN_TO_DEGREE = some (0, ChordType.major) := by
      decide
    simp [HarmonyManager.buildChord, hI, HarmonyManager.buildChordDegree,
      HarmonyManager.getScaleNote]
  · cases hres : lookupA roman ROMAN_TO_DEGREE with
    | none =>
      refine ⟨0, octave, ?_⟩
      simp only [HarmonyManager.setChordFromRoman, hun, if_false]
      simp [HarmonyManager.buildChord, hres, HarmonyManager.buildChordDegree,
        HarmonyManager.getScaleNote]
    | some info =>
      refine ⟨(info.1 : ℤ), octave, ?_⟩
      simp only [HarmonyManager.setChordFromRoman, hun, if_false]
      cases info with
      | mk deg ty =>
        cases ty <;>
          simp [HarmonyManager.buildChord, hres,
            HarmonyManager.buildChordDegree, HarmonyManager.getScaleNote]

/-- C5 witness: the amended statement at the default state with concrete
arguments. -/
theorem chord_reconstruct_amended_witness :
    defaultCmajor.isLocked = false ∧
    ((∃ d oct : ℤ,
      (defaultCmajor.setKey "D" "minor").buildChordDegree d oct =
        (defaultCmajor.setKey "D" "minor").chord) ∧
    (∃ d oct : ℤ,
      (defaultCmajor.setChordFromRoman "vi" 4).buildChordDegree d oct =
        (defaultCmajor.setChordFromRoman "vi" 4).chord)) :=
  ⟨rfl, chord_reconstruct_amended defaultCmajor "D" "minor" "vi" 4 rfl⟩

/-- Helper: a key present in the association list is found by lookup. -/
theorem lookupA_of_mem (l : List (ℕ × VoiceRec)) (a : ℕ) (b : VoiceRec)
    (h : (a, b) ∈ l) : ∃ c, lookupA a l = some c := by
  induction l with
  | nil => cases h
  | cons p rest ih =>
    by_cases hp : p.1 = a
    · exact ⟨p.2, by simp [lookupA, hp]⟩
    · rcases List.mem_cons.mp h with h1 | h1
      · exact absurd (congrArg Prod.fst h1.symm) hp
      · obtain ⟨c, hc⟩ := ih h1
        exact ⟨c, by simp [lookupA, hp, hc]⟩

/-- Helper: filtering out an absent key changes nothing. -/
theorem lookupA_eq_none_filter (l : List (ℕ × VoiceRec)) (id : ℕ)
    (h : lookupA id l = none) :
    l.filter (fun p => decide (p.1 ≠ id)) = l := by
  induction l with
  | nil => rfl
  | cons p rest ih =>
    unfold lookupA at h
    by_cases hp : p.1 = id
    · rw [if_pos hp] at h
      exact Option.noConfusion h
    · rw [if_neg hp] at h
      have hd : (decide (p.1 ≠ id)) = true := by simp [hp]
      simp only [List.filter_cons, hd, if_true, ih h]

/-- Helper: the registry after cleanupVoice, and its untouched fields. -/
theorem cleanupVoice_spec (s : SynthEngine) (id : ℕ) :
    (s.cleanupVoice id).activeVoices =
      s.activeVoices.filter (fun p => decide (p.1 ≠ id)) ∧
    (s.cleanupVoice id).timers = s.timers ∧
    (s.cleanupVoice id).polyphony = s.polyphony ∧
    (s.cleanupVoice id).registered = s.registered ∧
    (s.cleanupVoice id).initialized = s.initialized ∧
    (s.cleanupVoice id).nextVoiceId = s.nextVoiceId ∧
    (s.cleanupVoice id).now = s.now := by
  cases hlk : lookupA id s.activeVoices with
  | none =>
    have hf := lookupA_eq_none_filter s.activeVoices id hlk
    simp [SynthEngine.cleanupVoice, hlk]
    simpa using hf.symm
  | some v =>
    simp [SynthEngine.cleanupVoice, hlk]

/-- Helper: folding cleanupVoice over an id list filters exactly those keys
out of the registry and touches no other engine field but disposed. -/
theorem foldl_cleanup_spec (ids : List ℕ) (st : SynthEngine) :
    (ids.foldl SynthEngine.cleanupVoice st).activeVoices =
      st.activeVoices.filter (keyFree ids) ∧
    (ids.foldl SynthEngine.cleanupVoice st).timers = st.timers ∧
    (ids.foldl SynthEngine.cleanupVoice st).polyphony = st.polyphony ∧
    (ids.foldl SynthEngine.cleanupVoice st).registered = st.registered ∧
    (ids.foldl SynthEngine.cleanupVoice st).initialized = st.initialized ∧
    (ids.foldl SynthEngine.cleanupVoice st).nextVoiceId = st.nextVoiceId ∧
    (ids.foldl SynthEngine.cleanupVoice st).now = st.now := by
  induction ids generalizing st with
  | nil =>
    have hk : keyFree ([] : List ℕ) = fun _ => true :=
      funext fun a => by simp [keyFree]
    refine ⟨?_, rfl, rfl, rfl, rfl, rfl, rfl⟩
    rw [hk, List.filter_true]
    rfl
  | cons id ids ih =>
    rw [List.foldl_cons]
    obtain ⟨hv, ht, hp, hr, hi, hn, hw⟩ := ih (st.cleanupVoice id)
    obtain ⟨cv, ct, cp, cr, ci, cn, cw⟩ := cleanupVoice_spec st id
    have hpred : ∀ a : ℕ × VoiceRec,
        (keyFree ids a && decide (a.1 ≠ id)) = keyFree (id :: ids) a := by
      intro a
      by_cases h1 : a.1 = id <;> by_cases h2 : a.1 ∈ ids <;>
        simp [keyFree, h1, h2]
    refine ⟨?_, ht.trans ct, hp.trans cp, hr.trans cr, hi.trans ci,
      hn.trans cn, hw.trans cw⟩
    rw [hv, cv, List.filter_filter]
    exact List.filter_congr (fun a _ => hpred a)

/-- Helper: draining all pending timers leaves exactly the untimered
voices, clears the timer list, and preserves the other fields. -/
theorem drainTimers_spec (s : SynthEngine) :
    (SynthEngine.drainTimers s).activeVoices =
      s.activeVoices.filter (keyFree (SynthEngine.timerIds s)) ∧
    (SynthEngine.drainTimers s).timers = [] ∧
    (SynthEngine.drainTimers s).polyphony = s.polyphony ∧
    (SynthEngine.drainTimers s).registered = s.registered ∧
    (SynthEngine.drainTimers s).initialized = s.initialized ∧
    (SynthEngine.drainTimers s).nextVoiceId = s.nextVoiceId ∧
    (SynthEngine.drainTimers s).now = s.now :=
  foldl_cleanup_spec (SynthEngine.timerIds s) { s with timers := [] }

/-- Helper: the drained registry size is the untimered-voice count. -/
theorem drainTimers_length (s : SynthEngine) :
    (SynthEngine.drainTimers s).activeVoices.length = untimeredCount s := by
  rw [(drainTimers_spec s).1, untimeredCount,
    List.countP_eq_length_filter]

/-- Helper: with no pending timers every voice counts as untimered. -/
theorem untimeredCount_of_no_timers (s : SynthEngine) (h : s.timers = []) :
    untimeredCount s = s.activeVoices.length := by
  rw [untimeredCount, SynthEngine.timerIds, h]
  simp [keyFree]

/-- Helper: a key-preserving registry rewrite leaves the untimered count
unchanged. -/
theorem countP_keyFree_map (ids : List ℕ)
    (g : ℕ × VoiceRec → ℕ × VoiceRec) (hg : ∀ p, (g p).1 = p.1)
    (l : List (ℕ × VoiceRec)) :
    (l.map g).countP (keyFree ids) = l.countP (keyFree ids) := by
  rw [List.countP_map]
  refine List.countP_congr ?_
  intro a _
  simp [Function.comp, keyFree, hg a]

/-- Helper: growing the timer list can only shrink the untimered count. -/
theorem countP_keyFree_mono (ids1 ids2 : List ℕ)
    (hsub : ∀ a, a ∈ ids1 → a ∈ ids2) (l : List (ℕ × VoiceRec)) :
    l.countP (keyFree ids2) ≤ l.countP (keyFree ids1) := by
  refine List.countP_mono_left ?_
  intro p _ hp
  simp only [keyFree, decide_eq_true_eq] at hp ⊢
  exact fun hmem => hp (hsub _ hmem)

/-- Helper: stopNote never increases the untimered-voice count. -/
theorem stopNote_untimered (s : SynthEngine) (id : ℕ) (t : ℤ) :
    untimeredCount (s.stopNote id t) ≤ untimeredCount s := by
  cases hlk : lookupA id s.activeVoices with
  | none =>
    have h1 : s.stopNote id t = s := by
      simp [SynthEngine.stopNote, hlk]
    rw [h1]
  | some v =>
    have hAV : (s.stopNote id t).activeVoices =
        s.activeVoices.map (fun p => if p.1 = id then
          (p.1, { p.2 with releaseAt := some (s.now + t) }) else p) := by
      simp only [SynthEngine.stopNote, hlk]
    have hT : (s.stopNote id t).timers = s.timers ++ [(t + 100, id)] := by
      simp only [SynthEngine.stopNote, hlk]
    have hg : ∀ p : ℕ × VoiceRec,
        ((fun p => if p.1 = id then
          (p.1, { p.2 with releaseAt := some (s.now + t) }) else p) p).1 =
          p.1 := by
      intro p
      by_cases hp : p.1 = id <;> simp [hp]
    unfold untimeredCount SynthEngine.timerIds
    rw [hAV, hT, List.map_append, countP_keyFree_map _ _ hg]
    exact countP_keyFree_mono _ _
      (fun a ha => List.mem_append_left _ ha) _

/-- Helper: stealVoice never increases the untimered-voice count. -/
theorem stealVoice_untimered (s : SynthEngine) :
    untimeredCount s.stealVoice ≤ untimeredCount s := by
  unfold SynthEngine.stealVoice
  cases findOldestVoice s.activeVoices with
  | none => exact le_refl _
  | some q => exact stopNote_untimered s q.1 stealRelease

/-- Helper: with no timers pending and a nonempty registry, stealing
schedules the oldest voice away, dropping the untimered count strictly
below the registry size. -/
theorem stealVoice_untimered_strict (s : SynthEngine) (hT : s.timers = [])
    (hne : s.activeVoices ≠ []) :
    untimeredCount s.stealVoice + 1 ≤ s.activeVoices.length := by
  obtain ⟨p, rest, hl⟩ := List.exists_cons_of_ne_nil hne
  obtain ⟨j, u, heq, hle, hall, horig⟩ :=
    findOldest_fold_spec rest p.1 p.2.startTime
  have hfind : findOldestVoice s.activeVoices = some (j, u) := by
    rw [hl]; exact heq
  have hjmem : ∃ r0 : VoiceRec, (j, r0) ∈ s.activeVoices := by
    rcases horig with heqc | ⟨r0, hr0, -⟩
    · have hj : j = p.1 := congrArg Prod.fst heqc
      refine ⟨p.2, ?_⟩
      rw [hl, hj]
      exact List.mem_cons_self _ _
    · exact ⟨r0, by rw [hl]; exact List.mem_cons_of_mem _ hr0⟩
  obtain ⟨r0, hr0⟩ := hjmem
  obtain ⟨c, hc⟩ := lookupA_of_mem s.activeVoices j r0 hr0
  have hsteal : s.stealVoice = s.stopNote j stealRelease := by
    unfold SynthEngine.stealVoice
    rw [hfind]
  have hAV : (s.stopNote j stealRelease).activeVoices =
      s.activeVoices.map (fun p => if p.1 = j then
        (p.1, { p.2 with releaseAt := some (s.now + stealRelease) })
      else p) := by
    simp only [SynthEngine.stopNote, hc]
  have hT2 : (s.stopNote j stealRelease).timers =
      s.timers ++ [(stealRelease + 100, j)] := by
    simp only [SynthEngine.stopNote, hc]
  have hg : ∀ p : ℕ × VoiceRec,
      ((fun p => if p.1 = j then
        (p.1, { p.2 with releaseAt := some (s.now + stealRelease) })
      else p) p).1 = p.1 := by
    intro p
    by_cases hp : p.1 = j <;> simp [hp]
  rw [hsteal]
  unfold untimeredCount SynthEngine.timerIds
  rw [hAV, hT2, hT, List.nil_append, countP_keyFree_map _ _ hg]
  have hex : ¬ ∀ a ∈ s.activeVoices,
      keyFree (([(stealRelease + 100, j)] : List (ℤ × ℕ)).map Prod.snd)
        a = true := by
    intro hforall
    have := hforall (j, r0) hr0
    simp [keyFree] at this
  have hleq := List.countP_le_length
    (keyFree (([(stealRelease + 100, j)] : List (ℤ × ℕ)).map Prod.snd))
    (l := s.activeVoices)
  have hne2 : s.activeVoices.countP
      (keyFree (([(stealRelease + 100, j)] : List (ℤ × ℕ)).map Prod.snd)) ≠
      s.activeVoices.length :=
    fun hcontra => hex (List.countP_eq_length.mp hcontra)
  omega

/-- Helper: Map.set grows the registry by at most one entry. -/
theorem setVoice_length (l : List (ℕ × VoiceRec)) (id : ℕ) (r : VoiceRec) :
    (SynthEngine.setVoice l id r).length ≤ l.length + 1 := by
  unfold SynthEngine.setVoice
  cases lookupA id l <;> simp

/-- Helper: Map.set raises any untimered count by at most one. -/
theorem setVoice_countP (ids : List ℕ) (l : List (ℕ × VoiceRec)) (id : ℕ)
    (r : VoiceRec) :
    (SynthEngine.setVoice l id r).countP (keyFree ids) ≤
      l.countP (keyFree ids) + 1 := by
  unfold SynthEngine.setVoice
  cases lookupA id l with
  | some v =>
    have hg : ∀ p : ℕ × VoiceRec,
        ((fun p => if p.1 = id then (id, r) else p) p).1 = p.1 := by
      intro p
      by_cases hp : p.1 = id <;> simp [hp]
    rw [countP_keyFree_map _ _ hg]
    omega
  | none =>
    rw [List.countP_append]
    have hone : List.countP (keyFree ids) [(id, r)] ≤ 1 := by
      simp only [List.countP_cons, List.countP_nil]
      split <;> omega
    omega

/-- Helper: allocating the fresh record with its extra cleanup timer adds
at most one untimered voice. -/
theorem alloc_untimered (s1 : SynthEngine) (vid : ℕ) (r : VoiceRec)
    (extra : List (ℤ × ℕ)) :
    (SynthEngine.setVoice s1.activeVoices vid r).countP
        (keyFree ((s1.timers ++ extra).map Prod.snd)) ≤
      untimeredCount s1 + 1 := by
  refine le_trans (countP_keyFree_mono (s1.timers.map Prod.snd) _ ?_ _) ?_
  · intro a ha
    rw [List.map_append]
    exact List.mem_append_left _ ha
  · exact setVoice_countP _ _ _ _

/-- Helper: the same bound for a sustained allocation with no timer. -/
theorem alloc_untimered_nil (s1 : SynthEngine) (vid : ℕ) (r : VoiceRec) :
    (SynthEngine.setVoice s1.activeVoices vid r).countP
        (keyFree (s1.timers.map Prod.snd)) ≤ untimeredCount s1 + 1 :=
  setVoice_countP _ _ _ _

/-- Helper: playNote leaves the configuration fields alone. -/
theorem playNote_fields (s : SynthEngine) (n v : ℤ) (d : Option ℤ)
    (k : String) :
    ((s.playNote n v d k).1).polyphony = s.polyphony ∧
    ((s.playNote n v d k).1).registered = s.registered ∧
    ((s.playNote n v d k).1).initialized = s.initialized := by
  obtain ⟨hsl, hsn, hsr, hsp, hsi, hsw, hsd⟩ := stealVoice_fields s
  cases hinit : s.initialized with
  | false => simp [SynthEngine.playNote, hinit]
  | true =>
    by_cases hcap : s.polyphony ≤ s.activeVoices.length
    · by_cases hreg : k ∈ s.registered
      · cases d <;>
          simp [SynthEngine.playNote, hinit, hcap, hreg, hsr, hsp, hsi]
      · simp [SynthEngine.playNote, hinit, hcap, hreg, hsr, hsp, hsi]
    · by_cases hreg : k ∈ s.registered
      · cases d <;> simp [SynthEngine.playNote, hinit, hcap, hreg]
      · simp [SynthEngine.playNote, hinit, hcap, hreg]

/-- Helper: playNote grows the registry by at most one entry. -/
theorem playNote_length (s : SynthEngine) (n v : ℤ) (d : Option ℤ)
    (k : String) :
    ((s.playNote n v d k).1).activeVoices.length ≤
      s.activeVoices.length + 1 := by
  obtain ⟨hsl, hsn, hsr, hsp, hsi, hsw, hsd⟩ := stealVoice_fields s
  unfold SynthEngine.playNote
  split
  · dsimp only
    omega
  · dsimp only
    split
    · split
      · dsimp only
        omega
      · dsimp only
        refine le_trans (setVoice_length _ _ _) ?_
        omega
    · split
      · dsimp only
        omega
      · dsimp only
        refine le_trans (setVoice_length _ _ _) ?_
        omega

/-- Helper: one prompt-scheduled playNote from a drained state keeps the
untimered count within the polyphony ceiling. -/
theorem playNote_untimered (s : SynthEngine) (n v : ℤ) (d : Option ℤ)
    (k : String) (hT : s.timers = []) (hpoly : 1 ≤ s.polyphony)
    (hlen : s.activeVoices.length ≤ s.polyphony) :
    untimeredCount ((s.playNote n v d k).1) ≤ s.polyphony := by
  have hcnt : untimeredCount s = s.activeVoices.length :=
    untimeredCount_of_no_timers s hT
  have hsteal : untimeredCount s.stealVoice ≤ untimeredCount s :=
    stealVoice_untimered s
  have hstrict : s.polyphony ≤ s.activeVoices.length →
      untimeredCount s.stealVoice + 1 ≤ s.activeVoices.length := by
    intro hcap
    refine stealVoice_untimered_strict s hT ?_
    intro h0
    have hlenN := le_antisymm hlen hcap
    rw [h0] at hlenN
    simp at hlenN
    omega
  unfold SynthEngine.playNote
  split
  · dsimp only
    omega
  · dsimp only
    split
    · rename_i hcap
      have h1 := hstrict hcap
      split
      · dsimp only
        omega
      · split
        · dsimp only
          unfold untimeredCount SynthEngine.timerIds
          dsimp only
          refine le_trans (alloc_untimered _ _ _ _) ?_
          omega
        · dsimp only
          unfold untimeredCount SynthEngine.timerIds
          dsimp only
          refine le_trans (alloc_untimered_nil _ _ _) ?_
          omega
    · rename_i hcap
      split
      · dsimp only
        omega
      · split
        · dsimp only
          unfold untimeredCount SynthEngine.timerIds
          dsimp only
          refine le_trans (alloc_untimered _ _ _ _) ?_
          omega
        · dsimp only
          unfold untimeredCount SynthEngine.timerIds
          dsimp only
          refine le_trans (alloc_untimered_nil _ _ _) ?_
          omega

/-- Helper: a prompt-scheduled operation keeps the configured ceiling. -/
theorem promptStep_polyphony (s : SynthEngine) (op : SynthOp) :
    (promptStep s op).polyphony = s.polyphony := by
  cases op with
  | play n v d k =>
    exact ((playNote_fields (SynthEngine.drainTimers s) n v d k).1).trans
      (drainTimers_spec s).2.2.1
  | stop id t => exact (stopNote_fields s id t).2.2.2.1

/-- Helper: a prompt-scheduled operation preserves the untimered bound. -/
theorem promptStep_untimered (s : SynthEngine) (op : SynthOp)
    (hpoly : 1 ≤ s.polyphony) (hcnt : untimeredCount s ≤ s.polyphony) :
    untimeredCount (promptStep s op) ≤ s.polyphony := by
  cases op with
  | stop id t => exact le_trans (stopNote_untimered s id t) hcnt
  | play n v d k =>
    have hd := drainTimers_spec s
    have hlen : (SynthEngine.drainTimers s).activeVoices.length ≤
        (SynthEngine.drainTimers s).polyphony := by
      rw [drainTimers_length, hd.2.2.1]
      exact hcnt
    have h := playNote_untimered (SynthEngine.drainTimers s) n v d k
      hd.2.1 (by rw [hd.2.2.1]; exact hpoly) hlen
    rw [hd.2.2.1] at h
    exact h

/-- Helper: the untimered bound is an inductive invariant of every
prompt-scheduled call sequence. -/
theorem promptRun_invariant (ops : List SynthOp) (s : SynthEngine)
    (hpoly : 1 ≤ s.polyphony) (hcnt : untimeredCount s ≤ s.polyphony) :
    untimeredCount (promptRun s ops) ≤ s.polyphony ∧
    (promptRun s ops).polyphony = s.polyphony := by
  induction ops generalizing s with
  | nil => exact ⟨hcnt, rfl⟩
  | cons op ops ih =>
    have hstep := promptStep_polyphony s op
    have hcnt2 : untimeredCount (promptStep s op) ≤
        (promptStep s op).polyphony := by
      rw [hstep]
      exact promptStep_untimered s op hpoly hcnt
    have hpoly2 : 1 ≤ (promptStep s op).polyphony := by
      rw [hstep]
      exact hpoly
    obtain ⟨h1, h2⟩ := ih (promptStep s op) hpoly2 hcnt2
    rw [hstep] at h1 h2
    exact ⟨h1, h2⟩

/-- C1 counterexample: polyphony ceiling 1, two sustained playNote calls in
a row — the steal before the second allocation fast-releases the first
voice and schedules its cleanup, but does not remove it, so right after the
second call the registry holds 2 undisposed voices, exceeding the ceiling. -/
theorem polyphony_ceiling_counterexample :
    engineEmpty.polyphony = 1 ∧
    ((engineEmpty.playNote 60 70 none "synth").1.playNote 64 70 none
      "synth").1.activeVoices.length = 2 := by
  decide

/-- C1 amended: stealing precedes each allocation but only schedules the
stolen voice's removal, so the registry can transiently exceed the ceiling.
Under the prompt-cleanup schedule (every pending cleanup fires before the
next allocation), for any playNote and stopNote sequence from a state
within the ceiling: the untimered-voice count stays within the ceiling, the
registry is within the ceiling whenever the pending cleanups have fired,
and it exceeds the ceiling by at most one voice immediately after a further
allocation. -/
theorem polyphony_prompt_invariant (s : SynthEngine) (ops : List SynthOp)
    (hpoly : 1 ≤ s.polyphony)
    (hcnt : untimeredCount s ≤ s.polyphony) :
    untimeredCount (promptRun s ops) ≤ s.polyphony ∧
    (SynthEngine.drainTimers (promptRun s ops)).activeVoices.length ≤
      s.polyphony ∧
    ∀ (n v : ℤ) (d : Option ℤ) (k : String),
      ((SynthEngine.drainTimers (promptRun s ops)).playNote n v d
        k).1.activeVoices.length ≤ s.polyphony + 1 := by
  obtain ⟨h1, h2⟩ := promptRun_invariant ops s hpoly hcnt
  have hdlen : (SynthEngine.drainTimers (promptRun s ops)).activeVoices.length
      = untimeredCount (promptRun s ops) := drainTimers_length _
  refine ⟨h1, by rw [hdlen]; exact h1, ?_⟩
  intro n v d k
  have hp := playNote_length (SynthEngine.drainTimers (promptRun s ops))
    n v d k
  omega

/-- C1 witness: the invariant at the empty one-voice engine over a concrete
three-allocation sequence. -/
theorem polyphony_prompt_invariant_witness :
    1 ≤ engineEmpty.polyphony ∧
    untimeredCount engineEmpty ≤ engineEmpty.polyphony ∧
    (untimeredCount (promptRun engineEmpty
        [SynthOp.play 60 70 none "synth", SynthOp.play 64 70 none "synth",
         SynthOp.play 67 70 none "synth"]) ≤ engineEmpty.polyphony ∧
      (SynthEngine.drainTimers (promptRun engineEmpty
        [SynthOp.play 60 70 none "synth", SynthOp.play 64 70 none "synth",
         SynthOp.play 67 70 none "synth"])).activeVoices.length ≤
        engineEmpty.polyphony ∧
      ∀ (n v : ℤ) (d : Option ℤ) (k : String),
        ((SynthEngine.drainTimers (promptRun engineEmpty
          [SynthOp.play 60 70 none "synth", SynthOp.play 64 70 none "synth",
           SynthOp.play 67 70 none "synth"])).playNote n v d
          k).1.activeVoices.length ≤ engineEmpty.polyphony + 1) :=
  ⟨by decide, by decide,
   polyphony_prompt_invariant engineEmpty
     [SynthOp.play 60 70 none "synth", SynthOp.play 64 70 none "synth",
      SynthOp.play 67 70 none "synth"] (by decide) (by decide)⟩

end SonicUX
